import Mathlib

/-!
Verification of `vimwiki_markdown.py`, a single-file converter from
vimwiki-flavoured markdown to HTML.

The Python source is shallowly embedded below.  Python string builtins
(`str.startswith`, `str.endswith`, `str.replace`, `str.split`) are modelled
as executable Lean functions on `String` (viewed as `List Char`), the
`json` / `frontmatter` / `markdown` libraries are modelled at the precision
the program observes, and `main` is modelled as a pure function from a run
configuration (argv, environment, filesystem, parsed-front-matter oracle,
markdown-conversion oracle, current date) to a run outcome.

Layout: all definitions first, then all theorems.
-/

/- ### Models of Python string builtins -/

/-- Model of Python `str.startswith`: the pattern is a prefix of the string. -/
def pyStartsWith (s pre : String) : Bool :=
  pre.data.isPrefixOf s.data

/-- Model of Python `str.endswith`: the pattern is a suffix of the string. -/
def pyEndsWith (s suf : String) : Bool :=
  suf.data.isSuffixOf s.data

/-- Fuel-driven core of Python `str.replace`: replace every non-overlapping
occurrence of `pat` by `v`, scanning left to right.  The fuel is only a
termination device; `s.length` fuel always suffices. -/
def replaceFuel : Nat → List Char → List Char → List Char → List Char
  | 0, s, _, _ => s
  | fuel + 1, s, pat, v =>
    match s with
    | [] => []
    | c :: cs =>
      if pat ≠ [] ∧ pat.isPrefixOf (c :: cs) then
        v ++ replaceFuel fuel ((c :: cs).drop pat.length) pat v
      else
        c :: replaceFuel fuel cs pat v

/-- Python `str.replace` on character lists. -/
def replaceL (s pat v : List Char) : List Char :=
  replaceFuel s.length s pat v

/-- Model of Python `str.replace`.  (For the degenerate empty pattern —
which never occurs in this program, all patterns being fixed non-empty
tokens — the string is returned unchanged, unlike Python.) -/
def pyReplace (s old new : String) : String :=
  ⟨replaceL s.data old.data new.data⟩

/-- Fuel-driven core of Python `str.split(sep)` for a non-empty separator:
split at every occurrence of `sep`, no merging of adjacent separators. -/
def splitFuel : Nat → List Char → List Char → List (List Char)
  | 0, s, _ => [s]
  | fuel + 1, s, sep =>
    match s with
    | [] => [[]]
    | c :: cs =>
      if sep ≠ [] ∧ sep.isPrefixOf (c :: cs) then
        [] :: splitFuel fuel ((c :: cs).drop sep.length) sep
      else
        match splitFuel fuel cs sep with
        | [] => [[c]]
        | h :: t => (c :: h) :: t

/-- Model of Python `str.split(sep)` (non-empty separator). -/
def pySplit (s sep : String) : List String :=
  (splitFuel s.data.length s.data sep.data).map (fun cs => ⟨cs⟩)

/-- Number of positions of `s` at which `pat` occurs (all start offsets,
overlaps included).  Used to state "the template contains exactly one
occurrence of each token". -/
def countOccs (pat s : List Char) : Nat :=
  match s with
  | [] => 0
  | c :: cs => (if pat.isPrefixOf (c :: cs) then 1 else 0) + countOccs pat cs

/- ### The custom link rule -/

/-- Embedding of `LinkInlineProcessor.getLink`'s href rewriting
(src/vimwiki_markdown.py lines 51-58): the transformation applied to the
link target returned by the underlying markdown engine.  The `auto_index`
flag is the module-level probe result (lines 34-45), whose external
editor query is out of scope and is therefore an input here. -/
def fixHref (auto_index : Bool) (href : String) : String :=
  if !pyStartsWith href "http" && !pyEndsWith href ".html" then
    if auto_index && pyEndsWith href "/" then href ++ "index.html"
    else if !pyEndsWith href "/" then href ++ ".html"
    else href
  else href

/- ### Template rendering (src/vimwiki_markdown.py lines 154-166) -/

/-- The four placeholder tokens substituted by the template renderer. -/
def tokensList : List String := ["%title%", "%date%", "%root_path%", "%content%"]

/-- The sequential placeholder substitution performed by `main`
(lines 154-166), for string-valued placeholders in the usual insertion
order `%title%`, `%date%` followed by the `%root_path%` and `%content%`
replacements, with the root path already resolved. -/
def renderTemplate (t title date root content : String) : String :=
  pyReplace
    (pyReplace (pyReplace (pyReplace t "%title%" title) "%date%" date)
      "%root_path%" root)
    "%content%" content

/-- `tokChain [(b₁,a₁),…]` is the character list `%b₁% a₁ %b₂% a₂ …`:
the tail of a template decomposed into placeholder tokens (with bodies
`bᵢ`) and the literal segments `aᵢ` that follow them. -/
def tokChain : List (List Char × List Char) → List Char
  | [] => []
  | (b, a) :: rest => '%' :: (b ++ '%' :: (a ++ tokChain rest))

/- ### Model of YAML front matter (the external `frontmatter` library) -/

/-- A YAML scalar value as the program can observe it: the `nohtml`
comparison distinguishes the string `"true"` from the boolean `true`,
and non-string values make `str.replace` / `os.path.join` raise. -/
inductive Yaml where
  | str (s : String)
  | bool (b : Bool)
  | int (n : Int)
  | null
deriving DecidableEq

/-- Result of `frontmatter.load`: the metadata mapping and the body. -/
structure Post where
  meta : List (String × Yaml)
  content : String

/-- `'key' in post` / `post['key']`: first binding of the key. -/
def Post.get? (p : Post) (k : String) : Option Yaml :=
  (p.meta.find? (fun kv => kv.1 == k)).map (fun kv => kv.2)

/- ### Model of the filesystem -/

/-- State of a path: missing, existing but failing to read (e.g. a
permission error — `os.path.isfile` is true but `open`/`read` raises),
or readable text. -/
inductive FileState where
  | absent
  | unreadable
  | text (s : String)
deriving DecidableEq

/-- Model of `os.path.isfile`: true for any existing file. -/
def isfile (fs : String → FileState) (p : String) : Bool :=
  match fs p with
  | .absent => false
  | _ => true

/- ### Model of `datetime.datetime.today().strftime("%Y-%m-%d")` -/

structure Date where
  year : Nat
  month : Nat
  day : Nat

def pad2 (n : Nat) : String :=
  if n < 10 then "0" ++ toString n else toString n

def pad4 (n : Nat) : String :=
  if n < 10 then "000" ++ toString n
  else if n < 100 then "00" ++ toString n
  else if n < 1000 then "0" ++ toString n
  else toString n

/-- The `"%Y-%m-%d"` format used at src/vimwiki_markdown.py line 144-146. -/
def strftime_Ymd (d : Date) : String :=
  pad4 d.year ++ "-" ++ pad2 d.month ++ "-" ++ pad2 d.day

/- ### Models of `os.path` helpers (posixpath) -/

/-- Model of `os.path.join` for two components. -/
def os_path_join (a b : String) : String :=
  if pyStartsWith b "/" then b
  else if a = "" ∨ pyEndsWith a "/" then a ++ b
  else a ++ "/" ++ b

/-- Model of `os.path.basename`: the part after the last `/`. -/
def os_path_basename (p : String) : String :=
  (pySplit p "/").getLastD ""

/-- Index of the last occurrence of `c` in `cs`, or `-1` (Python `rfind`). -/
def rfindIdx (cs : List Char) (c : Char) : Int :=
  match cs with
  | [] => -1
  | x :: xs =>
    let r := rfindIdx xs c
    if 0 ≤ r then r + 1
    else if x = c then 0
    else -1

/-- First component of `os.path.splitext`: everything before the final
dot, unless every character between the last `/` and that dot is a dot
(so that dotfiles such as `.hidden` keep their name). -/
def os_path_splitext_fst (p : String) : String :=
  let cs := p.data
  let sep := rfindIdx cs '/'
  let dot := rfindIdx cs '.'
  if sep < dot then
    let mid := (cs.drop (sep + 1).toNat).take (dot - sep - 1).toNat
    if mid.any (fun c => c ≠ '.') then ⟨cs.take dot.toNat⟩ else p
  else p

/- ### Model of `json.loads` (the subset of JSON relevant here) -/

/-- A parsed Python/JSON value.  Float values are kept as their source
text; their numeric value is never inspected by this program. -/
inductive PyJson where
  | null
  | bool (b : Bool)
  | int (n : Int)
  | float (raw : String)
  | str (s : String)
  | arr (xs : List PyJson)
  | obj (kvs : List (String × PyJson))

def lbrace : Char := Char.ofNat 123

def rbrace : Char := Char.ofNat 125

/-- Skip JSON whitespace. -/
def skipWs : List Char → List Char
  | [] => []
  | c :: cs =>
    if c = ' ' ∨ c = '\t' ∨ c = '\n' ∨ c = '\r' then skipWs cs else c :: cs

def hexVal (c : Char) : Option Nat :=
  if '0' ≤ c ∧ c ≤ '9' then some (c.toNat - '0'.toNat)
  else if 'a' ≤ c ∧ c ≤ 'f' then some (c.toNat - 'a'.toNat + 10)
  else if 'A' ≤ c ∧ c ≤ 'F' then some (c.toNat - 'A'.toNat + 10)
  else none

/-- Parse the body of a JSON string after the opening quote; returns the
decoded characters and the remainder after the closing quote. -/
def parseJsonStringBody : List Char → Option (List Char × List Char)
  | [] => none
  | '"' :: rest => some ([], rest)
  | '\\' :: rest =>
    match rest with
    | [] => none
    | e :: rest2 =>
      if e = 'u' then
        match rest2 with
        | h1 :: h2 :: h3 :: h4 :: rest3 =>
          match hexVal h1, hexVal h2, hexVal h3, hexVal h4 with
          | some x1, some x2, some x3, some x4 =>
            match parseJsonStringBody rest3 with
            | some (s, r) =>
              some (Char.ofNat (((x1 * 16 + x2) * 16 + x3) * 16 + x4) :: s, r)
            | none => none
          | _, _, _, _ => none
        | _ => none
      else
        let esc : Option Char :=
          if e = '"' then some '"'
          else if e = '\\' then some '\\'
          else if e = '/' then some '/'
          else if e = 'b' then some (Char.ofNat 8)
          else if e = 'f' then some (Char.ofNat 12)
          else if e = 'n' then some '\n'
          else if e = 'r' then some '\r'
          else if e = 't' then some '\t'
          else none
        match esc with
        | some ch =>
          match parseJsonStringBody rest2 with
          | some (s, r) => some (ch :: s, r)
          | none => none
        | none => none
  | c :: rest =>
    if c.toNat < 32 then none
    else
      match parseJsonStringBody rest with
      | some (s, r) => some (c :: s, r)
      | none => none

def natOfDigits (ds : List Char) : Nat :=
  ds.foldl (fun n c => n * 10 + (c.toNat - '0'.toNat)) 0

/-- Parse a JSON number (integers as `PyJson.int`, anything with a
fraction or exponent as `PyJson.float` raw text). -/
def parseJsonNumber (cs : List Char) : Option (PyJson × List Char) :=
  let sgn : List Char × List Char :=
    match cs with
    | '-' :: t => (['-'], t)
    | _ => ([], cs)
  let negChars := sgn.1
  let ipSplit := sgn.2.span Char.isDigit
  let ip := ipSplit.1
  let r1 := ipSplit.2
  if ip = [] then none
  else if 1 < ip.length ∧ ip.head? = some '0' then none
  else
    let fracRes : Option (List Char × List Char) :=
      match r1 with
      | '.' :: t =>
        let fd := t.span Char.isDigit
        if fd.1 = [] then none else some ('.' :: fd.1, fd.2)
      | _ => some ([], r1)
    match fracRes with
    | none => none
    | some (fracChars, r2) =>
      let expRes : Option (List Char × List Char) :=
        match r2 with
        | e :: t =>
          if e = 'e' ∨ e = 'E' then
            let sg : List Char × List Char :=
              match t with
              | '+' :: u => (['+'], u)
              | '-' :: u => (['-'], u)
              | _ => ([], t)
            let ed := sg.2.span Char.isDigit
            if ed.1 = [] then none else some (e :: (sg.1 ++ ed.1), ed.2)
          else some ([], r2)
        | [] => some ([], r2)
      match expRes with
      | none => none
      | some (expChars, r3) =>
        if fracChars = [] ∧ expChars = [] then
          let n : Int := Int.ofNat (natOfDigits ip)
          some (.int (if negChars = [] then n else -n), r3)
        else
          some (.float ⟨negChars ++ ip ++ fracChars ++ expChars⟩, r3)

mutual

/-- Parse one JSON value (fuel-driven recursive descent). -/
def parseJsonValue : Nat → List Char → Option (PyJson × List Char)
  | 0, _ => none
  | fuel + 1, cs =>
    match skipWs cs with
    | [] => none
    | c :: rest =>
      if c = lbrace then
        match skipWs rest with
        | [] => none
        | c2 :: rest2 =>
          if c2 = rbrace then some (.obj [], rest2)
          else
            match parseJsonMembers fuel (c2 :: rest2) with
            | some (kvs, r) => some (.obj kvs, r)
            | none => none
      else if c = '[' then
        match skipWs rest with
        | [] => none
        | c2 :: rest2 =>
          if c2 = ']' then some (.arr [], rest2)
          else
            match parseJsonItems fuel (c2 :: rest2) with
            | some (xs, r) => some (.arr xs, r)
            | none => none
      else if c = '"' then
        match parseJsonStringBody rest with
        | some (s, r) => some (.str ⟨s⟩, r)
        | none => none
      else if c = 't' then
        match rest with
        | 'r' :: 'u' :: 'e' :: r => some (.bool true, r)
        | _ => none
      else if c = 'f' then
        match rest with
        | 'a' :: 'l' :: 's' :: 'e' :: r => some (.bool false, r)
        | _ => none
      else if c = 'n' then
        match rest with
        | 'u' :: 'l' :: 'l' :: r => some (.null, r)
        | _ => none
      else parseJsonNumber (c :: rest)

/-- Parse object members up to and including the closing brace. -/
def parseJsonMembers : Nat → List Char → Option (List (String × PyJson) × List Char)
  | 0, _ => none
  | fuel + 1, cs =>
    match skipWs cs with
    | [] => none
    | c :: rest =>
      if c = '"' then
        match parseJsonStringBody rest with
        | some (k, r1) =>
          match skipWs r1 with
          | ':' :: r3 =>
            match parseJsonValue fuel r3 with
            | some (v, r4) =>
              match skipWs r4 with
              | [] => none
              | c5 :: r6 =>
                if c5 = ',' then
                  match parseJsonMembers fuel r6 with
                  | some (kvs, r7) => some ((⟨k⟩, v) :: kvs, r7)
                  | none => none
                else if c5 = rbrace then some ([(⟨k⟩, v)], r6)
                else none
            | none => none
          | _ => none
        | none => none
      else none

/-- Parse array items up to and including the closing bracket. -/
def parseJsonItems : Nat → List Char → Option (List PyJson × List Char)
  | 0, _ => none
  | fuel + 1, cs =>
    match parseJsonValue fuel cs with
    | some (v, r1) =>
      match skipWs r1 with
      | [] => none
      | c :: r3 =>
        if c = ',' then
          match parseJsonItems fuel r3 with
          | some (xs, r4) => some (v :: xs, r4)
          | none => none
        else if c = ']' then some ([v], r3)
        else none
    | none => none

end

/-- Model of `json.loads`: `none` models `json.decoder.JSONDecodeError`. -/
def json_loads (s : String) : Option PyJson :=
  match parseJsonValue (s.data.length + 1) s.data with
  | some (v, rest) => if skipWs rest = [] then some v else none
  | none => none

/-- Python hashability of a parsed JSON value (dict keys must be
hashable; lists and dicts are not). -/
def isHashable : PyJson → Bool
  | .arr _ => false
  | .obj _ => false
  | _ => true

/-- Embedding of the extension-configuration parsing
(src/vimwiki_markdown.py lines 103-112): `json.loads` with a
`JSONDecodeError` fallback to comma splitting, then dict-ification of a
list result.  The returned association list is the `extensions` dict
(duplicate keys never arise in the uses verified here and are not
deduplicated).  An `.error` models the uncaught exception the program
raises when the parsed value is neither a dict nor a list (the
`extensions.keys()` call at line 112 fails), or a list with unhashable
elements (the dict comprehension at line 110 fails). -/
def parse_extensions (s : String) : Except String (List (PyJson × PyJson)) :=
  match json_loads s with
  | none =>
    .ok ((pySplit s ",").map (fun e => (PyJson.str e, PyJson.obj [])))
  | some (.arr xs) =>
    if xs.all isHashable then .ok (xs.map (fun x => (x, PyJson.obj [])))
    else .error "TypeError: unhashable type"
  | some (.obj kvs) => .ok (kvs.map (fun kv => (PyJson.str kv.1, kv.2)))
  | some _ => .error "AttributeError: keys"

/- ### The run configuration and outcome -/

/-- Inputs of one run of the program: the argument vector (including the
program name at index 0), the environment, the working directory, the
filesystem, the `frontmatter.load` oracle, the configured markdown
converter (`md.convert`, an external library), and today's date. -/
structure Cfg where
  argv : List String
  env : String → Option String
  cwd : String
  fs : String → FileState
  fm : String → Post
  convert : String → String
  today : Date

/-- Observable outcome of a run: `indexError` (missing required argv),
`usageError` (message written to stderr, `sys.exit(1)`), `ioError`
(uncaught `OSError` from the filesystem), `crashed` (any other uncaught
exception), `suppressed` (`nohtml` directive, `sys.exit(0)`, no file
written), or `success` (exit 0 with exactly one file written: its path
and contents). -/
inductive RunResult where
  | indexError
  | usageError (msg : String)
  | ioError
  | crashed (msg : String)
  | suppressed
  | success (path : String) (content : String)
deriving DecidableEq

def RunResult.exitCode : RunResult → Nat
  | .suppressed => 0
  | .success _ _ => 0
  | .indexError => 1
  | .usageError _ => 1
  | .ioError => 1
  | .crashed _ => 1

/-- The single file write a run performs, if any. -/
def RunResult.written : RunResult → Option (String × String)
  | .success p c => some (p, c)
  | _ => none

def RunResult.isSuccess : RunResult → Bool
  | .success _ _ => true
  | _ => false

/- ### Argument/environment resolution (src/vimwiki_markdown.py 61-78) -/

/-- `get` from the source: `l[index] if index < len(l) else default`. -/
def get (l : List String) (index : Nat) (default : String) : String :=
  if h : index < l.length then l.get ⟨index, h⟩ else default

/-- `os.getenv(name, default)`. -/
def envGet (env : String → Option String) (name default : String) : String :=
  (env name).getD default

def argSyntax (cfg : Cfg) : String := get cfg.argv 2 ""

def argOutputDir (cfg : Cfg) : String := get cfg.argv 4 ""

def argInputFile (cfg : Cfg) : String := get cfg.argv 5 ""

def templatePathOf (cfg : Cfg) : String :=
  get cfg.argv 7 (envGet cfg.env "VIMWIKI_TEMPLATE_PATH" "")

def templateDefaultOf (cfg : Cfg) : String :=
  get cfg.argv 8 (envGet cfg.env "VIMWIKI_TEMPLATE_DEFAULT" "")

def templateExtOf (cfg : Cfg) : String :=
  get cfg.argv 9 (envGet cfg.env "VIMWIKI_TEMPLATE_EXT" "")

/-- `ROOT_PATH` resolution (line 78): positional argument 10, else the
environment variable, else the current working directory. -/
def rootPathOf (cfg : Cfg) : String :=
  get cfg.argv 10 (envGet cfg.env "VIMWIKI_ROOT_PATH" cfg.cwd)

/-- `template_file` (lines 87-89): `os.path.join(TEMPLATE_PATH,
TEMPLATE_DEFAULT) + TEMPLATE_EXT`. -/
def templateFileOf (cfg : Cfg) : String :=
  os_path_join (templatePathOf cfg) (templateDefaultOf cfg) ++ templateExtOf cfg

/-- `filename` (line 95): basename of the input with extension stripped. -/
def filenameOf (cfg : Cfg) : String :=
  os_path_splitext_fst (os_path_basename (argInputFile cfg))

/-- `output_file` (line 96). -/
def outputFileOf (cfg : Cfg) : String :=
  os_path_join (argOutputDir cfg) (filenameOf cfg ++ ".html")

/-- `extensions_env` (lines 99-102), with default `"\x7b\x7d"` (empty
JSON object). -/
def extensionsEnvOf (cfg : Cfg) : String :=
  envGet cfg.env "VIMWIKI_MARKDOWN_EXTENSIONS" "\x7b\x7d"

/- ### The default template (src/vimwiki_markdown.py lines 13-31) -/

def default_template : String :=
  "<!DOCTYPE html>\n" ++
  "<html>\n" ++
  "    <head>\n" ++
  "        <meta charset=\"UTF-8\" />\n" ++
  "        <meta name=\"date\" content=\"%date%\" scheme=\"YYYY-MM-DD\">\n" ++
  "        <meta name=\"viewport\" content=\"width=device-width\" />\n" ++
  "        <title>%title%</title>\n" ++
  "        <link rel=\"stylesheet\" href=\"%root_path%style.css\" type=\"text/css\"\n" ++
  "         media=\"screen\" title=\"no title\" charset=\"utf-8\">\n" ++
  "        <link rel=\"stylesheet\" href=\"%root_path%pygmentize.css\" type=\"text/css\"\n" ++
  "         media=\"screen\" title=\"no title\" charset=\"utf-8\">\n" ++
  "    </head>\n" ++
  "    <body>\n" ++
  "\n" ++
  "%content%\n" ++
  "\n" ++
  "    </body>\n" ++
  "</html>\n"

def default_extension : List String := ["fenced_code", "tables", "codehilite"]

/- ### The placeholder dictionary (src/vimwiki_markdown.py 125-152) -/

/-- Lookup in the assoc-list model of the `placeholders` dict. -/
def lookupPh (ps : List (String × Yaml)) (k : String) : Option Yaml :=
  (ps.find? (fun kv => kv.1 == k)).map (fun kv => kv.2)

/-- The `placeholders` dict as iterated by the replace loop (line 155),
in insertion order (lines 132-135 then the defaults at 140-146).  The
`template` key (line 136-137) is popped before the loop (line 148) and
never reaches the dict iterated here; it is handled by
`templateOverride`. -/
def computePlaceholders (post : Post) (filename : String) (today : Date) :
    List (String × Yaml) :=
  let ps : List (String × Yaml) :=
    match post.get? "title" with
    | some v => [("%title%", v)]
    | none => []
  let ps :=
    match post.get? "date" with
    | some v => ps ++ [("%date%", v)]
    | none => ps
  let ps :=
    if (lookupPh ps "%title%").isNone then ps ++ [("%title%", Yaml.str filename)]
    else ps
  if (lookupPh ps "%date%").isNone then
    ps ++ [("%date%", Yaml.str (strftime_Ymd today))]
  else ps

/-- The replace loop (lines 155-156): `template.replace(placeholder,
value)` for each entry; a non-string value raises `TypeError`. -/
def renderPlaceholders (template : String) :
    List (String × Yaml) → Except String String
  | [] => .ok template
  | (k, Yaml.str v) :: rest => renderPlaceholders (pyReplace template k v) rest
  | (_, _) :: _ => .error "TypeError: str.replace"

/-- Reading the selected template file (lines 90-92 and 150-152): if the
path is not a file, keep the current template; if it exists but cannot
be read, the `OSError` propagates (`none`). -/
def readTemplate (fs : String → FileState) (p : String) (current : String) :
    Option String :=
  if isfile fs p then
    match fs p with
    | .text s => some s
    | _ => none
  else some current

/-- The `template` front-matter override (lines 147-152): resolve
`os.path.join(TEMPLATE_PATH, t) + TEMPLATE_EXT` and read it if it is a
file, keeping the previous template otherwise.  A non-string value makes
`os.path.join` raise `TypeError`. -/
def templateOverride (fs : String → FileState) (tp te : String) :
    Option Yaml → String → Except RunResult String
  | none, current => .ok current
  | some (Yaml.str t), current =>
    match readTemplate fs (os_path_join tp t ++ te) current with
    | some s => .ok s
    | none => .error .ioError
  | some _, _ => .error (.crashed "TypeError: os.path.join")

/-- The `%root_path%` substitution (lines 158-160): the sentinel `-`
resolves to the empty string. -/
def substRootPath (t rootPath : String) : String :=
  pyReplace t "%root_path%" (if rootPath ≠ "-" then rootPath else "")

/- ### `main` (src/vimwiki_markdown.py lines 65-169) -/

/-- The part of `main` from `frontmatter.load` on (lines 125-169):
`nohtml` suppression, placeholder computation, template override,
substitution, conversion and the final write. -/
def mainPost (cfg : Cfg) (template raw : String) : RunResult :=
  let post := cfg.fm raw
  if post.get? "nohtml" = some (Yaml.str "true") then .suppressed
  else
    let content := post.content ++ "\n"
    let ps := computePlaceholders post (filenameOf cfg) cfg.today
    match templateOverride cfg.fs (templatePathOf cfg) (templateExtOf cfg)
        (post.get? "template") template with
    | .error r => r
    | .ok template2 =>
      match renderPlaceholders template2 ps with
      | .error _ => .crashed "TypeError: str.replace"
      | .ok template3 =>
        let template4 := substRootPath template3 (rootPathOf cfg)
        let html := cfg.convert content
        .success (outputFileOf cfg) (pyReplace template4 "%content%" html)

/-- Embedding of `main` (named `mainRun`; Lean reserves `main`), in the source's order: required argv access
(lines 67-72, `IndexError` when absent), the syntax check (80-83), the
default/CLI template selection (85-92), the extension parsing (99-112,
whose only observable effects here are the possible uncaught
exceptions), opening the input file (123), and the rest via `mainPost`.
The markdown engine configuration (113-121) is the external `convert`
oracle. -/
def mainRun (cfg : Cfg) : RunResult :=
  if cfg.argv.length < 7 then .indexError
  else if argSyntax cfg ≠ "markdown" then
    .usageError ("Unsupported syntax: " ++ argSyntax cfg)
  else
    match readTemplate cfg.fs (templateFileOf cfg) default_template with
    | none => .ioError
    | some template =>
      match parse_extensions (extensionsEnvOf cfg) with
      | .error e => .crashed e
      | .ok _ =>
        match cfg.fs (argInputFile cfg) with
        | .absent => .ioError
        | .unreadable => .ioError
        | .text raw => mainPost cfg template raw

/- ### Order-independent template decomposition -/

/-- The bare names of the four placeholder tokens. -/
def bodyNames : List String := ["title", "date", "root_path", "content"]

/-- The body of a placeholder token: its characters with the enclosing
`%` pair stripped (`bodyOf "%title%" = ['t','i','t','l','e']`). -/
def bodyOf (tok : String) : List Char :=
  (tok.data.drop 1).dropLast

/-- The substitution value the renderer uses for a given token: the
values are positional (`%title%`, `%date%`, `%root_path%`, `%content%`
in that order). -/
def tokenValue (title date root content : String) (tok : String) : String :=
  if tok = "%title%" then title
  else if tok = "%date%" then date
  else if tok = "%root_path%" then root
  else content

/-- Sequential application of a list of `(body, value)` replacements,
each replacing the token `%body%`: the shape of the renderer's
substitution pipeline. -/
def applyReps (s : List Char) : List (List Char × List Char) → List Char
  | [] => s
  | (p, v) :: rest => applyReps (replaceL s ('%' :: (p ++ ['%'])) v) rest

/-- The value a replacement list assigns to a body. -/
def repValue (reps : List (List Char × List Char)) (b : List Char) :
    List Char :=
  match reps with
  | [] => []
  | (p, v) :: rest => if b = p then v else repValue rest b

/-- The fully substituted interleaving: each chain item's token replaced
by its value, followed by its segment. -/
def chainResult (reps : List (List Char × List Char)) :
    List (List Char × List Char) → List Char
  | [] => []
  | (b, s) :: items => repValue reps b ++ (s ++ chainResult reps items)

/-- Append `x` to the last item's segment. -/
def extendLast (x : List Char) :
    List (List Char × List Char) → List (List Char × List Char)
  | [] => []
  | [(b, s)] => [(b, s ++ x)]
  | bs :: rest => bs :: extendLast x rest

/-- The chain items remaining after the token with body `p` is replaced
by `v`: the item disappears, and the replacement value together with the
item's trailing segment merges into the preceding item's segment (or
into the %-free prefix when the item was first). -/
def stepItems (p v : List Char) :
    List (List Char × List Char) → List (List Char × List Char)
  | [] => []
  | (b, s) :: rest =>
    if b = p then rest
    else
      match rest with
      | (b2, s2) :: rest2 =>
        if b2 = p then (b, s ++ (v ++ s2)) :: rest2
        else (b, s) :: stepItems p v ((b2, s2) :: rest2)
      | [] => [(b, s)]

/-- Safety of a replacement run over a chain: before each replacement,
no segment of a non-final chain item equals the body about to be
replaced (such a segment, flanked by the closing and opening `%` of the
neighbouring tokens, would itself spell the token and make `str.replace`
match across item boundaries). -/
def SafeRun : List (List Char × List Char) → List (List Char × List Char) → Bool
  | [], _ => true
  | (p, v) :: reps, items =>
    items.dropLast.all (fun bs => bs.2 != p) && SafeRun reps (stepItems p v items)

/- ### Concrete run configurations used as test inputs -/

/-- Normal run whose front matter sets `nohtml: "true"`. -/
def cfg_c2 : Cfg where
  argv := ["prog", "1", "markdown", "md", "out", "input.md", "css"]
  env := fun _ => none
  cwd := "/cw"
  fs := fun p => if p = "input.md" then .text "x" else .absent
  fm := fun s => ⟨[("nohtml", Yaml.str "true")], s⟩
  convert := fun s => s
  today := ⟨2026, 10, 12⟩

/-- Run invoked with an unsupported markup name. -/
def cfg_c6 : Cfg where
  argv := ["prog", "1", "media", "md", "out", "input.md", "css"]
  env := fun _ => none
  cwd := "/cw"
  fs := fun p => if p = "input.md" then .text "x" else .absent
  fm := fun s => ⟨[], s⟩
  convert := fun s => s
  today := ⟨2026, 10, 12⟩

/-- Normal run in which the selected template file is missing. -/
def cfg_c8 : Cfg where
  argv := ["prog", "1", "markdown", "md", "out", "input.md", "css"]
  env := fun _ => none
  cwd := "/cw"
  fs := fun p => if p = "input.md" then .text "body" else .absent
  fm := fun s => ⟨[], s⟩
  convert := fun s => s
  today := ⟨2026, 10, 12⟩

/-- Run in which the selected template file exists but is unreadable
(its resolved path is the empty string, as no template arguments or
environment variables are given). -/
def cfg_c8w : Cfg where
  argv := ["prog", "1", "markdown", "md", "out", "input.md", "css"]
  env := fun _ => none
  cwd := "/cw"
  fs := fun p =>
    if p = "" then .unreadable
    else if p = "input.md" then .text "x" else .absent
  fm := fun s => ⟨[], s⟩
  convert := fun s => s
  today := ⟨2026, 10, 12⟩

/-- Run whose tenth positional argument (root path) is the sentinel `-`. -/
def cfg_c9dash : Cfg where
  argv := ["prog", "1", "markdown", "md", "out", "input.md", "css",
           "tpl", "default", ".html", "-"]
  env := fun _ => none
  cwd := "/cw"
  fs := fun p => if p = "input.md" then .text "x" else .absent
  fm := fun s => ⟨[], s⟩
  convert := fun s => s
  today := ⟨2026, 10, 12⟩

/-- Run with no root-path argument and no root-path environment
variable. -/
def cfg_c9none : Cfg where
  argv := ["prog", "1", "markdown", "md", "out", "input.md", "css"]
  env := fun _ => none
  cwd := "/cw"
  fs := fun p => if p = "input.md" then .text "x" else .absent
  fm := fun s => ⟨[], s⟩
  convert := fun s => s
  today := ⟨2026, 10, 12⟩

/-- Normal run whose front matter sets `nohtml` to the YAML boolean
`true` (not the string `"true"`). -/
def cfg_c10 : Cfg where
  argv := ["prog", "1", "markdown", "md", "out", "input.md", "css"]
  env := fun _ => none
  cwd := "/cw"
  fs := fun p => if p = "input.md" then .text "x" else .absent
  fm := fun s => ⟨[("nohtml", Yaml.bool true)], s⟩
  convert := fun s => s
  today := ⟨2026, 10, 12⟩

/- ### Basic lemmas about the string-builtin models -/

theorem replaceFuel_nil (fuel : Nat) (pat v : List Char) :
    replaceFuel fuel [] pat v = [] := by
  cases fuel <;> rfl

theorem replaceFuel_fuel_irrel (fuel fuel' : Nat) (s pat v : List Char)
    (h : s.length ≤ fuel) (h' : s.length ≤ fuel') :
    replaceFuel fuel s pat v = replaceFuel fuel' s pat v := by
  induction fuel generalizing fuel' s with
  | zero =>
    have : s = [] := List.length_eq_zero.mp (Nat.le_zero.mp h)
    subst this
    rw [replaceFuel_nil, replaceFuel_nil]
  | succ n ih =>
    cases s with
    | nil => rw [replaceFuel_nil, replaceFuel_nil]
    | cons c cs =>
      cases fuel' with
      | zero => simp at h'
      | succ m =>
        simp only [replaceFuel]
        by_cases hc : pat ≠ [] ∧ pat.isPrefixOf (c :: cs)
        · rw [if_pos hc, if_pos hc]
          have hplen : 0 < pat.length := List.length_pos.mpr hc.1
          have hd : ((c :: cs).drop pat.length).length ≤ n := by
            simp only [List.length_drop, List.length_cons]
            simp only [List.length_cons] at h
            omega
          have hd' : ((c :: cs).drop pat.length).length ≤ m := by
            simp only [List.length_drop, List.length_cons]
            simp only [List.length_cons] at h'
            omega
          rw [ih _ _ hd hd']
        · rw [if_neg hc, if_neg hc]
          have hcs : cs.length ≤ n := by
            simp only [List.length_cons] at h; omega
          have hcs' : cs.length ≤ m := by
            simp only [List.length_cons] at h'; omega
          rw [ih _ _ hcs hcs']

theorem replaceL_nil (pat v : List Char) : replaceL [] pat v = [] := rfl

theorem replaceL_cons (c : Char) (cs pat v : List Char) :
    replaceL (c :: cs) pat v =
      if pat ≠ [] ∧ pat.isPrefixOf (c :: cs) then
        v ++ replaceL ((c :: cs).drop pat.length) pat v
      else
        c :: replaceL cs pat v := by
  show replaceFuel (c :: cs).length (c :: cs) pat v = _
  simp only [List.length_cons, replaceFuel]
  by_cases hc : pat ≠ [] ∧ pat.isPrefixOf (c :: cs)
  · rw [if_pos hc, if_pos hc]
    have hplen : 0 < pat.length := List.length_pos.mpr hc.1
    congr 1
    apply replaceFuel_fuel_irrel
    · simp only [List.length_drop, List.length_cons]; omega
    · exact Nat.le_refl _
  · rw [if_neg hc, if_neg hc]
    rfl

theorem pyEndsWith_append (a b : String) : pyEndsWith (a ++ b) b = true := by
  have hsuf : b.data <:+ (a ++ b).data := by
    rw [String.data_append]
    exact List.suffix_append a.data b.data
  simpa [pyEndsWith, List.isSuffixOf_iff_suffix] using hsuf

/- ### C1 and C3: the link-rewrite policy -/

/-- C1: the custom link rule agrees with the spec's stated policy:
unchanged for `http`-prefixed or `.html`-suffixed targets; `index.html`
appended for auto-index directory targets; `.html` appended for
non-directory targets; unchanged otherwise. -/
theorem c1_link_rule_policy (auto : Bool) (href : String) :
    fixHref auto href =
      if pyStartsWith href "http" || pyEndsWith href ".html" then href
      else if auto && pyEndsWith href "/" then href ++ "index.html"
      else if !pyEndsWith href "/" then href ++ ".html"
      else href := by
  unfold fixHref
  cases h1 : pyStartsWith href "http" <;>
    cases h2 : pyEndsWith href ".html" <;>
      cases h3 : pyEndsWith href "/" <;> cases auto <;> simp

/-- C3 counterexample: with auto-index off, the target `"sub/"` (neither
`http`-prefixed nor `.html`-suffixed) is returned unchanged and does NOT
end in `.html`, refuting the claim that the rewritten target always ends
in `.html` when auto-index mode is off. -/
theorem c3_counterexample :
    pyStartsWith "sub/" "http" = false ∧
    pyEndsWith "sub/" ".html" = false ∧
    fixHref false "sub/" = "sub/" ∧
    pyEndsWith (fixHref false "sub/") ".html" = false := by
  refine ⟨by decide, by decide, by decide, by decide⟩

/-- C3 (amended): for targets not starting with `http` and not ending in
`.html`: with auto-index off the rewritten target ends in `.html`
provided the target does not end in `/`; with auto-index on, a target
ending in `/` is rewritten to end in `index.html`. -/
theorem c3_amended_link_suffixes (href : String)
    (h1 : pyStartsWith href "http" = false)
    (h2 : pyEndsWith href ".html" = false) :
    (pyEndsWith href "/" = false →
      pyEndsWith (fixHref false href) ".html" = true) ∧
    (pyEndsWith href "/" = true →
      pyEndsWith (fixHref true href) "index.html" = true) := by
  constructor
  · intro h3
    simp only [fixHref, h1, h2, h3]
    simpa using pyEndsWith_append href ".html"
  · intro h3
    simp only [fixHref, h1, h2, h3]
    simpa using pyEndsWith_append href "index.html"

theorem c3_amended_witness :
    pyEndsWith (fixHref false "sub/page") ".html" = true ∧
    pyEndsWith (fixHref true "sub/") "index.html" = true := by
  refine ⟨(c3_amended_link_suffixes "sub/page" (by decide) (by decide)).1 (by decide),
          (c3_amended_link_suffixes "sub/" (by decide) (by decide)).2 (by decide)⟩

/- ### C5: template placeholder substitution -/

theorem isPrefixOf_cons_false (ps : List Char) {c : Char} (hc : c ≠ '%')
    (l : List Char) : ('%' :: ps).isPrefixOf (c :: l) = false := by
  simp only [List.isPrefixOf, Bool.and_eq_false_iff, beq_eq_false_iff_ne, ne_eq]
  exact Or.inl fun h => hc h.symm

theorem replaceL_append_free (A z ps v : List Char) (hA : '%' ∉ A) :
    replaceL (A ++ z) ('%' :: ps) v = A ++ replaceL z ('%' :: ps) v := by
  induction A with
  | nil => simp
  | cons a A ih =>
    have ha : a ≠ '%' := fun h => hA (h ▸ List.mem_cons_self a A)
    have hA' : '%' ∉ A := fun h => hA (List.mem_cons_of_mem a h)
    rw [List.cons_append, replaceL_cons]
    rw [if_neg]
    · rw [ih hA', List.cons_append]
    · rw [isPrefixOf_cons_false ps ha]
      simp

theorem replaceL_append_self (pat z v : List Char) (h : pat ≠ []) :
    replaceL (pat ++ z) pat v = v ++ replaceL z pat v := by
  cases pat with
  | nil => exact absurd rfl h
  | cons p ps =>
    rw [List.cons_append, replaceL_cons, if_pos]
    · congr 1
      have : ((p :: ps) ++ z).drop (p :: ps).length = z := List.drop_left _ _
      rw [← List.cons_append, this]
    · refine ⟨h, ?_⟩
      rw [← List.cons_append]
      exact List.isPrefixOf_iff_prefix.mpr (List.prefix_append _ _)

theorem isPrefixOf_body_false (p b z : List Char)
    (hp : '%' ∉ p) (hb : '%' ∉ b) (hne : p ≠ b) :
    (p ++ ['%']).isPrefixOf (b ++ '%' :: z) = false := by
  induction p generalizing b with
  | nil =>
    cases b with
    | nil => exact absurd rfl hne
    | cons c b' =>
      have hc : c ≠ '%' := fun h => hb (h ▸ List.mem_cons_self c b')
      simp only [List.nil_append, List.cons_append, List.isPrefixOf,
        Bool.and_eq_false_iff, beq_eq_false_iff_ne, ne_eq]
      exact Or.inl fun h => hc h.symm
  | cons a p' ih =>
    cases b with
    | nil =>
      have ha : a ≠ '%' := fun h => hp (h ▸ List.mem_cons_self a p')
      simp only [List.nil_append, List.cons_append, List.isPrefixOf,
        Bool.and_eq_false_iff, beq_eq_false_iff_ne, ne_eq]
      exact Or.inl ha
    | cons c b' =>
      by_cases hac : a = c
      · subst hac
        have hp' : '%' ∉ p' := fun h => hp (List.mem_cons_of_mem a h)
        have hb' : '%' ∉ b' := fun h => hb (List.mem_cons_of_mem a h)
        have hne' : p' ≠ b' := fun h => hne (h ▸ rfl)
        simp only [List.cons_append, List.isPrefixOf, Bool.and_eq_false_iff]
        exact Or.inr (ih b' hp' hb' hne')
      · simp only [List.cons_append, List.isPrefixOf,
          Bool.and_eq_false_iff, beq_eq_false_iff_ne, ne_eq]
        exact Or.inl hac

theorem isPrefixOf_free_false (p a : List Char) (ha : '%' ∉ a) :
    (p ++ ['%']).isPrefixOf a = false := by
  cases h : (p ++ ['%']).isPrefixOf a with
  | false => rfl
  | true =>
    have hsub := (List.isPrefixOf_iff_prefix.mp h).subset
    exact absurd (hsub (by simp)) ha

theorem replaceL_tokChain_eq (rest : List (List Char × List Char))
    (p v : List Char) (hp : '%' ∉ p)
    (hrest : ∀ ba ∈ rest, '%' ∉ ba.1 ∧ '%' ∉ ba.2 ∧ ba.1 ≠ p ∧ ba.2 ≠ p) :
    replaceL (tokChain rest) ('%' :: (p ++ ['%'])) v = tokChain rest := by
  induction rest with
  | nil => simp [tokChain, replaceL_nil]
  | cons ba rest ih =>
    obtain ⟨b, a⟩ := ba
    obtain ⟨hb, ha, hbp, hap⟩ := hrest ⟨b, a⟩ (List.mem_cons_self _ _)
    have hrest' := fun x hx => hrest x (List.mem_cons_of_mem _ hx)
    simp only [tokChain]
    rw [replaceL_cons, if_neg]
    · rw [replaceL_append_free b _ _ _ hb]
      rw [replaceL_cons, if_neg]
      · rw [replaceL_append_free a _ _ _ ha, ih hrest']
      · simp only [List.isPrefixOf, beq_self_eq_true, Bool.true_and]
        have : (p ++ ['%']).isPrefixOf (a ++ tokChain rest) = false := by
          cases rest with
          | nil =>
            simp only [tokChain, List.append_nil]
            exact isPrefixOf_free_false p a ha
          | cons ba' rest' =>
            obtain ⟨b', a'⟩ := ba'
            simp only [tokChain]
            exact isPrefixOf_body_false p a _ hp ha (fun h => hap h.symm)
        simp [this]
    · simp only [List.isPrefixOf, beq_self_eq_true, Bool.true_and]
      have : (p ++ ['%']).isPrefixOf (b ++ '%' :: (a ++ tokChain rest)) = false :=
        isPrefixOf_body_false p b _ hp hb (fun h => hbp h.symm)
      simp [this]

theorem replaceL_step (A a p v : List Char)
    (rest : List (List Char × List Char))
    (hA : '%' ∉ A) (hp : '%' ∉ p) (ha : '%' ∉ a)
    (hrest : ∀ ba ∈ rest, '%' ∉ ba.1 ∧ '%' ∉ ba.2 ∧ ba.1 ≠ p ∧ ba.2 ≠ p) :
    replaceL (A ++ ('%' :: (p ++ ['%'])) ++ (a ++ tokChain rest))
        ('%' :: (p ++ ['%'])) v
      = A ++ v ++ (a ++ tokChain rest) := by
  rw [List.append_assoc, replaceL_append_free A _ _ _ hA]
  rw [replaceL_append_self _ _ _ (by simp)]
  rw [replaceL_append_free a _ _ _ ha]
  rw [replaceL_tokChain_eq rest p v hp hrest]
  simp [List.append_assoc]

theorem countOccs_eq_zero_of_free (pat s : List Char)
    (hpat : '%' ∈ pat) (hs : '%' ∉ s) : countOccs pat s = 0 := by
  induction s with
  | nil => rfl
  | cons c cs ih =>
    have hcs : '%' ∉ cs := fun h => hs (List.mem_cons_of_mem c h)
    have hpre : pat.isPrefixOf (c :: cs) = false := by
      cases h : pat.isPrefixOf (c :: cs) with
      | false => rfl
      | true =>
        have hsub := (List.isPrefixOf_iff_prefix.mp h).subset
        exact absurd (hsub hpat) hs
    simp [countOccs, hpre, ih hcs]

theorem data_ne_of_ne {s name : String} (h : s ≠ name) : s.data ≠ name.data :=
  fun hd => h (String.ext hd)

theorem renderTemplate_data (t title date root content : String) :
    (renderTemplate t title date root content).data =
      replaceL
        (replaceL
          (replaceL
            (replaceL t.data ('%' :: (['t','i','t','l','e'] ++ ['%'])) title.data)
            ('%' :: (['d','a','t','e'] ++ ['%'])) date.data)
          ('%' :: (['r','o','o','t','_','p','a','t','h'] ++ ['%'])) root.data)
        ('%' :: (['c','o','n','t','e','n','t'] ++ ['%'])) content.data := rfl

/-- C5 counterexample: the template
`"%title% %root_path% %content% %ti%date%tle%"` contains each of the four
tokens exactly once, and the values `"T"`, `""`, `"R"`, `"C"` are
token-free, yet rendering leaves the token text `%title%` in the result
(removing `%date%` from the fragment `%ti%date%tle%` recreates
`%title%`), refuting the claim that no token text remains. -/
theorem c5_counterexample :
    (∀ tok ∈ tokensList,
      countOccs tok.data
        ("%title% %root_path% %content% %ti%date%tle%" : String).data = 1) ∧
    (∀ tok ∈ tokensList, ∀ val ∈ (["T", "", "R", "C"] : List String),
      countOccs tok.data val.data = 0) ∧
    countOccs ("%title%" : String).data
      (renderTemplate "%title% %root_path% %content% %ti%date%tle%"
        "T" "" "R" "C").data = 1 := by
  refine ⟨by decide, by decide, by decide⟩

/- ### C2, C10: the nohtml suppression directive -/

/-- C2: in a run that reaches the front matter (arguments present,
markdown syntax, readable-or-absent template, parsable extension
configuration, readable input), a front matter with `nohtml: "true"`
makes the run exit 0 with no output file written. -/
theorem c2_nohtml_suppression (cfg : Cfg) (raw : String)
    (hlen : 7 ≤ cfg.argv.length)
    (hsyn : argSyntax cfg = "markdown")
    (htmpl : cfg.fs (templateFileOf cfg) ≠ .unreadable)
    (hext : ∃ exts, parse_extensions (extensionsEnvOf cfg) = .ok exts)
    (hin : cfg.fs (argInputFile cfg) = .text raw)
    (hno : (cfg.fm raw).get? "nohtml" = some (.str "true")) :
    mainRun cfg = .suppressed ∧ (mainRun cfg).exitCode = 0 ∧
      (mainRun cfg).written = none := by
  have hmain : mainRun cfg = .suppressed := by
    unfold mainRun
    rw [if_neg (by omega), if_neg (by simp [hsyn])]
    have hrt : ∃ t,
        readTemplate cfg.fs (templateFileOf cfg) default_template = some t := by
      unfold readTemplate isfile
      cases h : cfg.fs (templateFileOf cfg) with
      | absent => exact ⟨default_template, by simp⟩
      | unreadable => exact absurd h htmpl
      | text s => exact ⟨s, by simp⟩
    obtain ⟨t, hrt⟩ := hrt
    rw [hrt]
    obtain ⟨exts, hexts⟩ := hext
    rw [hexts, hin]
    dsimp only
    unfold mainPost
    dsimp only
    rw [if_pos hno]
  exact ⟨hmain, by rw [hmain]; rfl, by rw [hmain]; rfl⟩

theorem c2_witness :
    mainRun cfg_c2 = .suppressed ∧ (mainRun cfg_c2).exitCode = 0 ∧
      (mainRun cfg_c2).written = none :=
  c2_nohtml_suppression cfg_c2 "x" (by decide) (by decide) (by decide)
    ⟨[], rfl⟩ rfl rfl

/- ### C6: exit codes -/

/-- C6: with the required arguments present, a syntax argument other
than `markdown` produces the usage message on the error stream and exit
code 1; and exit code 0 occurs exactly on normal success or `nohtml`
suppression. -/
theorem c6_exit_codes (cfg : Cfg) :
    (7 ≤ cfg.argv.length → argSyntax cfg ≠ "markdown" →
      mainRun cfg = .usageError ("Unsupported syntax: " ++ argSyntax cfg) ∧
      (mainRun cfg).exitCode = 1) ∧
    ((mainRun cfg).exitCode = 0 ↔
      mainRun cfg = .suppressed ∨ ∃ p c, mainRun cfg = .success p c) := by
  constructor
  · intro hlen hsyn
    have hm : mainRun cfg =
        .usageError ("Unsupported syntax: " ++ argSyntax cfg) := by
      unfold mainRun
      rw [if_neg (by omega), if_pos hsyn]
    exact ⟨hm, by rw [hm]; rfl⟩
  · cases h : mainRun cfg <;> simp [RunResult.exitCode]

theorem c6_witness :
    mainRun cfg_c6 = .usageError ("Unsupported syntax: " ++ argSyntax cfg_c6) ∧
      (mainRun cfg_c6).exitCode = 1 :=
  (c6_exit_codes cfg_c6).1 (by decide) (by decide)

/- ### C7: default title and date -/

/-- C7: when the front matter lacks `title` and `date`, the placeholder
dictionary maps `%title%` to the input file's base name with its
extension stripped and `%date%` to today's date in `YYYY-MM-DD` format. -/
theorem c7_default_title_date (post : Post) (inputFile : String) (d : Date)
    (ht : post.get? "title" = none) (hd : post.get? "date" = none) :
    computePlaceholders post (os_path_splitext_fst (os_path_basename inputFile)) d
      = [("%title%",
            Yaml.str (os_path_splitext_fst (os_path_basename inputFile))),
         ("%date%", Yaml.str (strftime_Ymd d))] := by
  unfold computePlaceholders
  rw [ht, hd]
  simp [lookupPh]

theorem c7_witness :
    computePlaceholders ⟨[], "body"⟩
        (os_path_splitext_fst (os_path_basename "notes/todo.md"))
        ⟨2026, 10, 12⟩
      = [("%title%", Yaml.str "todo"), ("%date%", Yaml.str "2026-10-12")] :=
  c7_default_title_date ⟨[], "body"⟩ "notes/todo.md" ⟨2026, 10, 12⟩ rfl rfl

/- ### C8: template-file failures -/

/-- C8 counterexample: in a run whose selected template file is missing
(`cfg_c8.fs` has no file at the resolved template path), the run does
not fail: it succeeds with exit code 0, the missing template being
silently masked by the built-in default template — refuting the claim
that a missing template propagates as an unrecoverable run failure. -/
theorem c8_counterexample :
    cfg_c8.fs (templateFileOf cfg_c8) = .absent ∧
    (mainRun cfg_c8).isSuccess = true ∧
    (mainRun cfg_c8).exitCode = 0 :=
  ⟨rfl, rfl, rfl⟩

/-- C8 (amended): when the selected template file exists but cannot be
read, the failure is left unhandled and surfaces as an unrecoverable
I/O failure of the run; a missing template file, by contrast, is
silently replaced by the previously selected template. -/
theorem c8_amended_unreadable_template (cfg : Cfg)
    (hlen : 7 ≤ cfg.argv.length)
    (hsyn : argSyntax cfg = "markdown")
    (hun : cfg.fs (templateFileOf cfg) = .unreadable) :
    mainRun cfg = .ioError := by
  unfold mainRun
  rw [if_neg (by omega), if_neg (by simp [hsyn])]
  have hrt : readTemplate cfg.fs (templateFileOf cfg) default_template
      = none := by
    unfold readTemplate isfile
    rw [hun]
    simp
  rw [hrt]

theorem c8_amended_witness : mainRun cfg_c8w = .ioError :=
  c8_amended_unreadable_template cfg_c8w (by decide) (by decide) (by decide)

/- ### C9: root-path resolution and substitution -/

/-- C9: the sentinel root path `-` makes the `%root_path%` substitution
replace every occurrence with the empty string; any other resolved root
path is substituted literally; and when neither the tenth positional
argument nor the environment variable is given, the root path falls back
to the current working directory. -/
theorem c9_root_path (cfg : Cfg) (t : String) :
    (rootPathOf cfg = "-" →
      substRootPath t (rootPathOf cfg) = pyReplace t "%root_path%" "") ∧
    (rootPathOf cfg ≠ "-" →
      substRootPath t (rootPathOf cfg) =
        pyReplace t "%root_path%" (rootPathOf cfg)) ∧
    (cfg.argv.length ≤ 10 → cfg.env "VIMWIKI_ROOT_PATH" = none →
      rootPathOf cfg = cfg.cwd) := by
  refine ⟨?_, ?_, ?_⟩
  · intro h
    unfold substRootPath
    rw [if_neg (by simp [h])]
  · intro h
    unfold substRootPath
    rw [if_pos h]
  · intro h1 h2
    have hg : ∀ d : String, get cfg.argv 10 d = d := fun d => dif_neg (by omega)
    unfold rootPathOf
    rw [hg]
    unfold envGet
    rw [h2]
    rfl

theorem c9_witness :
    substRootPath "href=\"%root_path%style.css\"" (rootPathOf cfg_c9dash)
        = pyReplace "href=\"%root_path%style.css\"" "%root_path%" "" ∧
    rootPathOf cfg_c9none = cfg_c9none.cwd :=
  ⟨(c9_root_path cfg_c9dash "href=\"%root_path%style.css\"").1 (by decide),
   (c9_root_path cfg_c9none "").2.2 (by decide) rfl⟩

/- ### C10: nohtml values other than the string "true" -/

theorem renderPlaceholders_ok (t : String) (ps : List (String × Yaml))
    (h : ∀ kv ∈ ps, ∃ s, kv.2 = Yaml.str s) :
    ∃ out, renderPlaceholders t ps = .ok out := by
  induction ps generalizing t with
  | nil => exact ⟨t, rfl⟩
  | cons kv rest ih =>
    obtain ⟨k, v⟩ := kv
    obtain ⟨s, hs⟩ := h (k, v) (List.mem_cons_self _ _)
    simp only at hs
    subst hs
    exact ih (pyReplace t k s) (fun kv hkv => h kv (List.mem_cons_of_mem _ hkv))

theorem computePlaceholders_str (post : Post) (fn : String) (d : Date)
    (htitle : ∀ v, post.get? "title" = some v → ∃ s, v = Yaml.str s)
    (hdate : ∀ v, post.get? "date" = some v → ∃ s, v = Yaml.str s) :
    ∀ kv ∈ computePlaceholders post fn d, ∃ s, kv.2 = Yaml.str s := by
  intro kv hkv
  unfold computePlaceholders at hkv
  cases h1 : post.get? "title" with
  | none =>
    cases h2 : post.get? "date" with
    | none =>
      rw [h1, h2] at hkv
      simp [lookupPh] at hkv
      rcases hkv with rfl | rfl <;> exact ⟨_, rfl⟩
    | some v =>
      obtain ⟨s, rfl⟩ := hdate v h2
      rw [h1, h2] at hkv
      simp [lookupPh] at hkv
      rcases hkv with rfl | rfl <;> exact ⟨_, rfl⟩
  | some v =>
    obtain ⟨s, rfl⟩ := htitle v h1
    cases h2 : post.get? "date" with
    | none =>
      rw [h1, h2] at hkv
      simp [lookupPh] at hkv
      rcases hkv with rfl | rfl <;> exact ⟨_, rfl⟩
    | some w =>
      obtain ⟨s2, rfl⟩ := hdate w h2
      rw [h1, h2] at hkv
      simp [lookupPh] at hkv
      rcases hkv with rfl | rfl <;> exact ⟨_, rfl⟩

/-- C10: in a run that reaches the front matter, a `nohtml` key bound to
any value other than the YAML string `"true"` (including the boolean
`true`) does not suppress the run: conversion proceeds and exactly one
output file is written (provided the remaining metadata is well formed:
string-valued `title`/`date` if present, no `template` override). -/
theorem c10_nohtml_other_values (cfg : Cfg) (raw : String) (y : Yaml)
    (hlen : 7 ≤ cfg.argv.length)
    (hsyn : argSyntax cfg = "markdown")
    (htmpl : cfg.fs (templateFileOf cfg) ≠ .unreadable)
    (hext : ∃ exts, parse_extensions (extensionsEnvOf cfg) = .ok exts)
    (hin : cfg.fs (argInputFile cfg) = .text raw)
    (hno : (cfg.fm raw).get? "nohtml" = some y)
    (hy : y ≠ .str "true")
    (htitle : ∀ v, (cfg.fm raw).get? "title" = some v → ∃ s, v = Yaml.str s)
    (hdate : ∀ v, (cfg.fm raw).get? "date" = some v → ∃ s, v = Yaml.str s)
    (htq : (cfg.fm raw).get? "template" = none) :
    mainRun cfg ≠ .suppressed ∧
      ∃ out, mainRun cfg = .success (outputFileOf cfg) out ∧
        (mainRun cfg).written = some (outputFileOf cfg, out) ∧
        (mainRun cfg).exitCode = 0 := by
  have hmain : ∃ out, mainRun cfg = .success (outputFileOf cfg) out := by
    unfold mainRun
    rw [if_neg (by omega), if_neg (by simp [hsyn])]
    have hrt : ∃ t,
        readTemplate cfg.fs (templateFileOf cfg) default_template = some t := by
      unfold readTemplate isfile
      cases h : cfg.fs (templateFileOf cfg) with
      | absent => exact ⟨default_template, by simp⟩
      | unreadable => exact absurd h htmpl
      | text s => exact ⟨s, by simp⟩
    obtain ⟨t, hrt⟩ := hrt
    rw [hrt]
    obtain ⟨exts, hexts⟩ := hext
    rw [hexts, hin]
    dsimp only
    unfold mainPost
    dsimp only
    rw [if_neg (by rw [hno]; intro h; exact hy (Option.some.injEq _ _ ▸ h))]
    unfold templateOverride
    rw [htq]
    dsimp only
    obtain ⟨out, hout⟩ := renderPlaceholders_ok t
      (computePlaceholders (cfg.fm raw) (filenameOf cfg) cfg.today)
      (computePlaceholders_str (cfg.fm raw) (filenameOf cfg) cfg.today
        htitle hdate)
    rw [hout]
    exact ⟨_, rfl⟩
  obtain ⟨out, hout⟩ := hmain
  refine ⟨?_, out, hout, ?_, ?_⟩
  · rw [hout]
    intro h
    cases h
  · rw [hout]
    rfl
  · rw [hout]
    rfl

theorem c10_witness :
    mainRun cfg_c10 ≠ .suppressed ∧
      ∃ out, mainRun cfg_c10 = .success (outputFileOf cfg_c10) out ∧
        (mainRun cfg_c10).written = some (outputFileOf cfg_c10, out) ∧
        (mainRun cfg_c10).exitCode = 0 :=
  c10_nohtml_other_values cfg_c10 "x" (Yaml.bool true) (by decide) (by decide)
    (by decide) ⟨[], rfl⟩ rfl rfl (by decide)
    (fun v h => Option.noConfusion h)
    (fun v h => Option.noConfusion h)
    rfl

/- ### C4: extension-configuration parsing -/

/-- C4: the legacy value `"tables,toc"` parses to the same extension
mapping as the JSON object with keys `tables` and `toc` and empty
configurations; and whenever the value is not valid JSON, the failure is
recovered (never surfaced) by splitting on commas into bare identifiers,
each assigned an empty configuration. -/
theorem c4_extension_config (s : String) :
    parse_extensions "tables,toc" =
      parse_extensions "\x7b\"tables\": \x7b\x7d, \"toc\": \x7b\x7d\x7d" ∧
    parse_extensions "tables,toc" =
      .ok [(.str "tables", .obj []), (.str "toc", .obj [])] ∧
    (json_loads s = none →
      parse_extensions s =
        .ok ((pySplit s ",").map (fun e => (PyJson.str e, PyJson.obj [])))) := by
  refine ⟨rfl, rfl, ?_⟩
  intro h
  unfold parse_extensions
  rw [h]

theorem c4_witness :
    json_loads "fenced_code,toc" = none ∧
    parse_extensions "fenced_code,toc" =
      .ok [(.str "fenced_code", .obj []), (.str "toc", .obj [])] :=
  ⟨rfl, ((c4_extension_config "fenced_code,toc").2.2 rfl).trans rfl⟩

/- ### Chain lemmas for the order-independent substitution theorem -/

theorem tokChain_append (l1 l2 : List (List Char × List Char)) :
    tokChain (l1 ++ l2) = tokChain l1 ++ tokChain l2 := by
  induction l1 with
  | nil => simp [tokChain]
  | cons ba rest ih =>
    obtain ⟨b, a⟩ := ba
    simp [tokChain, ih, List.append_assoc]

theorem replaceL_tokChain_append (items : List (List Char × List Char))
    (p v z : List Char) (hp : '%' ∉ p)
    (hitems : ∀ ba ∈ items, '%' ∉ ba.1 ∧ '%' ∉ ba.2 ∧ ba.1 ≠ p ∧ ba.2 ≠ p) :
    replaceL (tokChain items ++ '%' :: z) ('%' :: (p ++ ['%'])) v
      = tokChain items ++ replaceL ('%' :: z) ('%' :: (p ++ ['%'])) v := by
  induction items with
  | nil => simp [tokChain]
  | cons ba rest ih =>
    obtain ⟨b, a⟩ := ba
    obtain ⟨hb, ha, hbp, hap⟩ := hitems ⟨b, a⟩ (List.mem_cons_self _ _)
    have hrest' := fun x hx => hitems x (List.mem_cons_of_mem _ hx)
    simp only [tokChain, List.cons_append, List.append_assoc]
    rw [replaceL_cons, if_neg]
    · rw [show b ++ '%' :: (a ++ (tokChain rest ++ '%' :: z))
          = b ++ ('%' :: (a ++ (tokChain rest ++ '%' :: z))) from rfl]
      rw [replaceL_append_free b _ _ _ hb]
      rw [replaceL_cons, if_neg]
      · rw [replaceL_append_free a _ _ _ ha, ih hrest']
      · simp only [List.isPrefixOf, beq_self_eq_true, Bool.true_and]
        have hfalse :
            (p ++ ['%']).isPrefixOf (a ++ (tokChain rest ++ '%' :: z)) = false := by
          cases rest with
          | nil =>
            simp only [tokChain, List.nil_append]
            exact isPrefixOf_body_false p a z hp ha (fun h => hap h.symm)
          | cons ba' rest' =>
            obtain ⟨b', a'⟩ := ba'
            simp only [tokChain, List.cons_append, List.append_assoc]
            exact isPrefixOf_body_false p a _ hp ha (fun h => hap h.symm)
        simp [hfalse]
    · simp only [List.isPrefixOf, beq_self_eq_true, Bool.true_and]
      have hfalse :
          (p ++ ['%']).isPrefixOf (b ++ '%' :: (a ++ (tokChain rest ++ '%' :: z)))
            = false :=
        isPrefixOf_body_false p b _ hp hb (fun h => hbp h.symm)
      simp [hfalse]

theorem replaceL_tokChain_skip (items : List (List Char × List Char))
    (p v : List Char) (hp : '%' ∉ p)
    (hitems : ∀ ba ∈ items, '%' ∉ ba.1 ∧ '%' ∉ ba.2 ∧ ba.1 ≠ p)
    (hseg : ∀ ba ∈ items.dropLast, ba.2 ≠ p) :
    replaceL (tokChain items) ('%' :: (p ++ ['%'])) v = tokChain items := by
  induction items with
  | nil => simp [tokChain, replaceL_nil]
  | cons ba rest ih =>
    obtain ⟨b, a⟩ := ba
    obtain ⟨hb, ha, hbp⟩ := hitems ⟨b, a⟩ (List.mem_cons_self _ _)
    have hrest' := fun x hx => hitems x (List.mem_cons_of_mem _ hx)
    simp only [tokChain]
    rw [replaceL_cons, if_neg]
    · rw [replaceL_append_free b _ _ _ hb]
      rw [replaceL_cons, if_neg]
      · rw [replaceL_append_free a _ _ _ ha]
        rw [ih hrest' ?hseg']
        case hseg' =>
          intro x hx
          apply hseg
          cases rest with
          | nil => simp at hx
          | cons ba' rest' =>
            rw [List.dropLast_cons₂]
            exact List.mem_cons_of_mem _ hx
      · simp only [List.isPrefixOf, beq_self_eq_true, Bool.true_and]
        have hfalse : (p ++ ['%']).isPrefixOf (a ++ tokChain rest) = false := by
          cases rest with
          | nil =>
            simp only [tokChain, List.append_nil]
            exact isPrefixOf_free_false p a ha
          | cons ba' rest' =>
            obtain ⟨b', a'⟩ := ba'
            have hap : a ≠ p := by
              have := hseg ⟨b, a⟩ (by rw [List.dropLast_cons₂]; exact List.mem_cons_self _ _)
              exact this
            simp only [tokChain]
            exact isPrefixOf_body_false p a _ hp ha (fun h => hap h.symm)
        simp [hfalse]
    · simp only [List.isPrefixOf, beq_self_eq_true, Bool.true_and]
      have hfalse : (p ++ ['%']).isPrefixOf (b ++ '%' :: (a ++ tokChain rest)) = false :=
        isPrefixOf_body_false p b _ hp hb (fun h => hbp h.symm)
      simp [hfalse]

theorem tokChain_extendLast (x : List Char)
    (l : List (List Char × List Char)) (hne : l ≠ []) :
    tokChain (extendLast x l) = tokChain l ++ x := by
  induction l with
  | nil => exact absurd rfl hne
  | cons ba rest ih =>
    obtain ⟨b, s⟩ := ba
    cases rest with
    | nil => simp [extendLast, tokChain, List.append_assoc]
    | cons ba' rest' =>
      obtain ⟨b2, s2⟩ := ba'
      have : extendLast x ((b, s) :: (b2, s2) :: rest')
          = (b, s) :: extendLast x ((b2, s2) :: rest') := by
        simp [extendLast]
      rw [this]
      simp only [tokChain]
      rw [ih (by simp)]
      simp [tokChain, List.append_assoc]

theorem map_fst_extendLast (x : List Char) (l : List (List Char × List Char)) :
    (extendLast x l).map Prod.fst = l.map Prod.fst := by
  induction l with
  | nil => rfl
  | cons ba rest ih =>
    obtain ⟨b, s⟩ := ba
    cases rest with
    | nil => simp [extendLast]
    | cons ba' rest' =>
      obtain ⟨b2, s2⟩ := ba'
      have : extendLast x ((b, s) :: (b2, s2) :: rest')
          = (b, s) :: extendLast x ((b2, s2) :: rest') := by
        simp [extendLast]
      rw [this]
      simp only [List.map_cons]
      rw [ih]
      simp

theorem mem_extendLast_free (x : List Char) (l : List (List Char × List Char))
    (hx : '%' ∉ x) (hl : ∀ bs ∈ l, '%' ∉ bs.1 ∧ '%' ∉ bs.2) :
    ∀ bs ∈ extendLast x l, '%' ∉ bs.1 ∧ '%' ∉ bs.2 := by
  induction l with
  | nil => simp [extendLast]
  | cons ba rest ih =>
    obtain ⟨b, s⟩ := ba
    obtain ⟨hb, hs⟩ := hl ⟨b, s⟩ (List.mem_cons_self _ _)
    have hrest := fun y hy => hl y (List.mem_cons_of_mem _ hy)
    cases rest with
    | nil =>
      intro bs hbs
      simp only [extendLast, List.mem_singleton] at hbs
      subst hbs
      refine ⟨hb, ?_⟩
      simp only [List.mem_append]
      rintro (h | h)
      · exact hs h
      · exact hx h
    | cons ba' rest' =>
      intro bs hbs
      have : extendLast x ((b, s) :: ba' :: rest')
          = (b, s) :: extendLast x (ba' :: rest') := by
        simp [extendLast]
      rw [this] at hbs
      rcases List.mem_cons.mp hbs with rfl | h
      · exact ⟨hb, hs⟩
      · exact ih hrest bs h

theorem stepItems_first (p v t : List Char) (post : List (List Char × List Char)) :
    stepItems p v ((p, t) :: post) = post := by
  unfold stepItems
  rw [if_pos rfl]

theorem stepItems_eq (p v t : List Char) (pre post : List (List Char × List Char))
    (hpre : ∀ bs ∈ pre, bs.1 ≠ p) (hne : pre ≠ []) :
    stepItems p v (pre ++ (p, t) :: post) = extendLast (v ++ t) pre ++ post := by
  induction pre with
  | nil => exact absurd rfl hne
  | cons ba pre' ih =>
    obtain ⟨b, s⟩ := ba
    have hb : b ≠ p := hpre ⟨b, s⟩ (List.mem_cons_self _ _)
    have hpre' := fun y hy => hpre y (List.mem_cons_of_mem _ hy)
    cases pre' with
    | nil =>
      simp [stepItems, extendLast, hb]
    | cons ba' pre'' =>
      obtain ⟨b2, s2⟩ := ba'
      have hb2 : b2 ≠ p := hpre ⟨b2, s2⟩ (by simp)
      have hstep : stepItems p v (((b, s) :: (b2, s2) :: pre'') ++ (p, t) :: post)
          = (b, s) :: stepItems p v (((b2, s2) :: pre'') ++ (p, t) :: post) := by
        simp [stepItems, hb, hb2]
      rw [hstep, ih hpre' (by simp)]
      have : extendLast (v ++ t) ((b, s) :: (b2, s2) :: pre'')
          = (b, s) :: extendLast (v ++ t) ((b2, s2) :: pre'') := by
        simp [extendLast]
      rw [this, List.cons_append]

theorem chainResult_append (reps l1 l2 : List (List Char × List Char)) :
    chainResult reps (l1 ++ l2) = chainResult reps l1 ++ chainResult reps l2 := by
  induction l1 with
  | nil => simp [chainResult]
  | cons ba rest ih =>
    obtain ⟨b, s⟩ := ba
    simp [chainResult, ih, List.append_assoc]

theorem chainResult_extendLast (reps : List (List Char × List Char))
    (x : List Char) (l : List (List Char × List Char)) (hne : l ≠ []) :
    chainResult reps (extendLast x l) = chainResult reps l ++ x := by
  induction l with
  | nil => exact absurd rfl hne
  | cons ba rest ih =>
    obtain ⟨b, s⟩ := ba
    cases rest with
    | nil => simp [extendLast, chainResult, List.append_assoc]
    | cons ba' rest' =>
      obtain ⟨b2, s2⟩ := ba'
      have : extendLast x ((b, s) :: (b2, s2) :: rest')
          = (b, s) :: extendLast x ((b2, s2) :: rest') := by
        simp [extendLast]
      rw [this]
      simp only [chainResult]
      rw [ih (by simp)]
      simp [chainResult, List.append_assoc]

theorem chainResult_cons_notmem (p v : List Char)
    (reps l : List (List Char × List Char)) (h : p ∉ l.map Prod.fst) :
    chainResult ((p, v) :: reps) l = chainResult reps l := by
  induction l with
  | nil => rfl
  | cons ba rest ih =>
    obtain ⟨b, s⟩ := ba
    have hb : b ≠ p := by
      intro hbp
      exact h (by simp [hbp])
    have hrest : p ∉ rest.map Prod.fst := fun hm => h (by simp [hm])
    simp only [chainResult, repValue, if_neg hb]
    rw [ih hrest]

/-- Sequentially replacing a list of distinct tokens, each occurring
exactly once in a chain of %-free segments, substitutes each token by
its value in place — provided the run is safe (`SafeRun`): no non-final
segment, original or merged, spells the body of a token still to be
replaced. -/
theorem applyReps_tokChain (reps : List (List Char × List Char)) :
    ∀ (A : List Char) (items : List (List Char × List Char)),
    '%' ∉ A →
    (∀ pv ∈ reps, '%' ∉ pv.1 ∧ '%' ∉ pv.2) →
    (∀ bs ∈ items, '%' ∉ bs.1 ∧ '%' ∉ bs.2) →
    (items.map Prod.fst).Perm (reps.map Prod.fst) →
    (reps.map Prod.fst).Nodup →
    SafeRun reps items = true →
    applyReps (A ++ tokChain items) reps = A ++ chainResult reps items := by
  induction reps with
  | nil =>
    intro A items hA hreps hitems hperm hnodup hsafe
    have : items.map Prod.fst = [] := by
      simpa using hperm.eq_nil
    have hitemsnil : items = [] := by
      cases items with
      | nil => rfl
      | cons x xs => simp at this
    subst hitemsnil
    simp [applyReps, tokChain, chainResult]
  | cons pv reps' ih =>
    intro A items hA hreps hitems hperm hnodup hsafe
    obtain ⟨p, v⟩ := pv
    obtain ⟨hpfree, hvfree⟩ := hreps ⟨p, v⟩ (List.mem_cons_self _ _)
    have hreps' := fun x hx => hreps x (List.mem_cons_of_mem _ hx)
    have hnodup' : (reps'.map Prod.fst).Nodup := (List.nodup_cons.mp hnodup).2
    -- locate the item carrying body p
    have hpmem : p ∈ items.map Prod.fst := hperm.mem_iff.mpr (by simp)
    obtain ⟨bt, hbtmem, hbtp⟩ := List.mem_map.mp hpmem
    obtain ⟨t, hbt⟩ : ∃ t, bt = (p, t) := ⟨bt.2, by rw [← hbtp]⟩
    subst hbt
    obtain ⟨pre, post, hsplit⟩ := List.append_of_mem hbtmem
    subst hsplit
    -- bodies of pre and post differ from p
    have hnodupitems : (((pre ++ (p, t) :: post)).map Prod.fst).Nodup :=
      (hperm.nodup_iff).mpr hnodup
    have hppre : p ∉ pre.map Prod.fst := by
      rw [List.map_append] at hnodupitems
      simp only [List.map_cons] at hnodupitems
      have := (List.nodup_middle.mp hnodupitems)
      exact fun hm => (List.nodup_cons.mp this).1 (by simp [List.mem_append, hm])
    have hppost : p ∉ post.map Prod.fst := by
      rw [List.map_append] at hnodupitems
      simp only [List.map_cons] at hnodupitems
      have := (List.nodup_middle.mp hnodupitems)
      exact fun hm => (List.nodup_cons.mp this).1 (by simp [List.mem_append, hm])
    -- safety components
    have hsafe1 : ∀ bs ∈ (pre ++ (p, t) :: post).dropLast, bs.2 ≠ p := by
      have h1 := (Bool.and_eq_true _ _).mp hsafe |>.1
      intro bs hbs
      have := List.all_eq_true.mp h1 bs hbs
      simpa using this
    have hsafe2 : SafeRun reps' (stepItems p v (pre ++ (p, t) :: post)) = true :=
      (Bool.and_eq_true _ _).mp hsafe |>.2
    -- membership helpers
    have hprefree : ∀ bs ∈ pre, '%' ∉ bs.1 ∧ '%' ∉ bs.2 :=
      fun bs hbs => hitems bs (by simp [hbs])
    have hpostfree : ∀ bs ∈ post, '%' ∉ bs.1 ∧ '%' ∉ bs.2 :=
      fun bs hbs => hitems bs (by simp [hbs])
    have htfree : '%' ∉ t := (hitems ⟨p, t⟩ (by simp)).2
    have hpredrop : ∀ bs ∈ pre, bs ∈ (pre ++ (p, t) :: post).dropLast := by
      intro bs hbs
      rw [List.dropLast_append_cons]
      exact List.mem_append_left _ hbs
    have hpostdrop : ∀ bs ∈ post.dropLast, bs ∈ (pre ++ (p, t) :: post).dropLast := by
      intro bs hbs
      rw [List.dropLast_append_cons]
      apply List.mem_append_right
      cases post with
      | nil => simp at hbs
      | cons q qs =>
        rw [List.dropLast_cons₂]
        exact List.mem_cons_of_mem _ hbs
    -- the single replacement step
    have hstep :
        replaceL (A ++ tokChain (pre ++ (p, t) :: post)) ('%' :: (p ++ ['%'])) v
          = A ++ (tokChain pre ++ (v ++ (t ++ tokChain post))) := by
      rw [tokChain_append]
      simp only [tokChain]
      rw [show A ++ (tokChain pre ++ '%' :: (p ++ '%' :: (t ++ tokChain post)))
            = A ++ (tokChain pre ++ '%' :: (p ++ '%' :: (t ++ tokChain post)))
          from rfl]
      rw [replaceL_append_free A _ _ _ hA]
      rw [replaceL_tokChain_append pre p v _ hpfree ?hpre]
      case hpre =>
        intro ba hba
        obtain ⟨hb1, hb2⟩ := hprefree ba hba
        refine ⟨hb1, hb2, ?_, hsafe1 ba (hpredrop ba hba)⟩
        intro hbp
        exact hppre (hbp ▸ List.mem_map_of_mem Prod.fst hba)
      have hpateq : ('%' :: (p ++ '%' :: (t ++ tokChain post)))
          = ('%' :: (p ++ ['%'])) ++ (t ++ tokChain post) := by
        simp [List.append_assoc]
      rw [hpateq, replaceL_append_self _ _ _ (by simp)]
      rw [replaceL_append_free t _ _ _ htfree]
      rw [replaceL_tokChain_skip post p v hpfree ?hpost ?hpostseg]
      case hpost =>
        intro ba hba
        obtain ⟨hb1, hb2⟩ := hpostfree ba hba
        refine ⟨hb1, hb2, ?_⟩
        intro hbp
        exact hppost (hbp ▸ List.mem_map_of_mem Prod.fst hba)
      case hpostseg =>
        intro ba hba
        exact hsafe1 ba (hpostdrop ba hba)
    -- fold one step of applyReps
    have happly :
        applyReps (A ++ tokChain (pre ++ (p, t) :: post)) ((p, v) :: reps')
          = applyReps (A ++ (tokChain pre ++ (v ++ (t ++ tokChain post)))) reps' := by
      simp only [applyReps]
      rw [hstep]
    rw [happly]
    -- repackage and apply the induction hypothesis
    cases hpre0 : pre with
    | nil =>
      subst hpre0
      have hshape : A ++ (tokChain [] ++ (v ++ (t ++ tokChain post)))
          = (A ++ v ++ t) ++ tokChain post := by
        simp [tokChain, List.append_assoc]
      rw [hshape]
      have hstep0 : stepItems p v ([] ++ (p, t) :: post) = post := by
        simp [stepItems_first]
      rw [hstep0] at hsafe2
      have hAfree : '%' ∉ A ++ v ++ t := by
        simp only [List.mem_append]
        push_neg
        exact ⟨⟨hA, hvfree⟩, htfree⟩
      have hpermpost : (post.map Prod.fst).Perm (reps'.map Prod.fst) := by
        simp only [List.nil_append, List.map_cons] at hperm
        exact hperm.cons_inv
      rw [ih (A ++ v ++ t) post hAfree hreps' hpostfree hpermpost hnodup' hsafe2]
      have hchain : chainResult ((p, v) :: reps') ((p, t) :: post)
          = v ++ (t ++ chainResult reps' post) := by
        simp [chainResult, repValue, chainResult_cons_notmem p v reps' post hppost]
      simp [hchain, List.append_assoc]
    | cons ba0 pre1 =>
      rw [← hpre0]
      have hprene : pre ≠ [] := by rw [hpre0]; simp
      have hstepeq : stepItems p v (pre ++ (p, t) :: post)
          = extendLast (v ++ t) pre ++ post := by
        apply stepItems_eq
        · intro bs hbs
          intro hbp
          exact hppre (hbp ▸ List.mem_map_of_mem Prod.fst hbs)
        · exact hprene
      rw [hstepeq] at hsafe2
      have hshape : A ++ (tokChain pre ++ (v ++ (t ++ tokChain post)))
          = A ++ tokChain (extendLast (v ++ t) pre ++ post) := by
        rw [tokChain_append, tokChain_extendLast _ _ hprene]
        simp [List.append_assoc]
      rw [hshape]
      have hvtfree : '%' ∉ v ++ t := by
        simp only [List.mem_append]
        push_neg
        exact ⟨hvfree, htfree⟩
      have hitems' : ∀ bs ∈ extendLast (v ++ t) pre ++ post,
          '%' ∉ bs.1 ∧ '%' ∉ bs.2 := by
        intro bs hbs
        rcases List.mem_append.mp hbs with h | h
        · exact mem_extendLast_free _ _ hvtfree hprefree bs h
        · exact hpostfree bs h
      have hperm' : ((extendLast (v ++ t) pre ++ post).map Prod.fst).Perm
          (reps'.map Prod.fst) := by
        rw [List.map_append, map_fst_extendLast]
        have h1 : ((pre ++ (p, t) :: post).map Prod.fst).Perm
            (p :: reps'.map Prod.fst) := by simpa using hperm
        have h2 : (pre.map Prod.fst ++ p :: post.map Prod.fst).Perm
            (p :: (pre.map Prod.fst ++ post.map Prod.fst)) := List.perm_middle
        have h3 : ((pre ++ (p, t) :: post).map Prod.fst)
            = pre.map Prod.fst ++ p :: post.map Prod.fst := by
          simp [List.map_append]
        rw [h3] at h1
        exact (h2.symm.trans h1).cons_inv
      rw [ih A (extendLast (v ++ t) pre ++ post) hA hreps' hitems' hperm'
        hnodup' hsafe2]
      have hchain : chainResult ((p, v) :: reps') (pre ++ (p, t) :: post)
          = chainResult reps' (extendLast (v ++ t) pre ++ post) := by
        rw [chainResult_append, chainResult_append]
        rw [chainResult_extendLast _ _ _ hprene]
        have hpre' : chainResult ((p, v) :: reps') pre = chainResult reps' pre :=
          chainResult_cons_notmem p v reps' pre hppre
        have hpost' : chainResult ((p, v) :: reps') post = chainResult reps' post :=
          chainResult_cons_notmem p v reps' post hppost
        simp [chainResult, repValue, hpre', hpost', List.append_assoc]
      rw [hchain]

theorem tokenValue_title (a b c d : String) :
    tokenValue a b c d "%title%" = a := rfl

theorem tokenValue_date (a b c d : String) :
    tokenValue a b c d "%date%" = b := rfl

theorem tokenValue_root (a b c d : String) :
    tokenValue a b c d "%root_path%" = c := rfl

theorem tokenValue_content (a b c d : String) :
    tokenValue a b c d "%content%" = d := rfl

theorem data_pct_title :
    ("%title%" : String).data = '%' :: (bodyOf "%title%" ++ ['%']) := rfl

theorem data_pct_date :
    ("%date%" : String).data = '%' :: (bodyOf "%date%" ++ ['%']) := rfl

theorem data_pct_root :
    ("%root_path%" : String).data = '%' :: (bodyOf "%root_path%" ++ ['%']) := rfl

theorem data_pct_content :
    ("%content%" : String).data = '%' :: (bodyOf "%content%" ++ ['%']) := rfl

theorem notIn_bodyNames_data {s : String} (h : s ∉ bodyNames) :
    s.data ≠ bodyOf "%title%" ∧ s.data ≠ bodyOf "%date%" ∧
    s.data ≠ bodyOf "%root_path%" ∧ s.data ≠ bodyOf "%content%" := by
  refine ⟨fun hd => h ?_, fun hd => h ?_, fun hd => h ?_, fun hd => h ?_⟩
  · have : s = "title" := String.ext hd
    simp [this, bodyNames]
  · have : s = "date" := String.ext hd
    simp [this, bodyNames]
  · have : s = "root_path" := String.ext hd
    simp [this, bodyNames]
  · have : s = "content" := String.ext hd
    simp [this, bodyNames]

theorem renderTemplate_applyReps (t title date root content : String) :
    (renderTemplate t title date root content).data =
      applyReps t.data
        [(bodyOf "%title%", title.data), (bodyOf "%date%", date.data),
         (bodyOf "%root_path%", root.data),
         (bodyOf "%content%", content.data)] := rfl

set_option maxHeartbeats 3200000

/-- C5 (amended): for a template of the decomposed form
`a₀ T₁ s₁ T₂ s₂ T₃ s₃ T₄ s₄`, where `(T₁,T₂,T₃,T₄)` is ANY arrangement of
the four placeholder tokens, the literal segments and the substitution
values contain no `%` character, no inter-token segment `s₁`,`s₂`,`s₃` is
exactly a bare token name, and none of the collapsed inner windows
`s₁ ++ val(T₂) ++ s₂`, `s₂ ++ val(T₃) ++ s₃` and
`s₁ ++ val(T₂) ++ s₂ ++ val(T₃) ++ s₃` (with `val(T)` the value
substituted for token `T`) is exactly a bare token name, rendering
replaces each token exactly once by its value — the result is the
interleaving `a₀ val(T₁) s₁ val(T₂) s₂ val(T₃) s₃ val(T₄) s₄` — and no
token text remains.  The window conditions are forced: without them a
replaced token's value can merge with its neighbouring segments into the
body of a still-pending token and make the replacement match across
token boundaries (see `render_reorder_merge_hazard`). -/
theorem c5_amended_render_round_trip
    (t1 t2 t3 t4 a0 s1 s2 s3 s4 v1 v2 v3 v4 : String)
    (hperm : [t1, t2, t3, t4].Perm tokensList)
    (h0 : '%' ∉ a0.data) (h1 : '%' ∉ s1.data) (h2 : '%' ∉ s2.data)
    (h3 : '%' ∉ s3.data) (h4 : '%' ∉ s4.data)
    (hv1 : '%' ∉ v1.data) (hv2 : '%' ∉ v2.data) (hv3 : '%' ∉ v3.data)
    (hv4 : '%' ∉ v4.data)
    (hs1 : s1 ∉ bodyNames) (hs2 : s2 ∉ bodyNames) (hs3 : s3 ∉ bodyNames)
    (hw12 : s1 ++ tokenValue v1 v2 v3 v4 t2 ++ s2 ∉ bodyNames)
    (hw23 : s2 ++ tokenValue v1 v2 v3 v4 t3 ++ s3 ∉ bodyNames)
    (hw13 : s1 ++ tokenValue v1 v2 v3 v4 t2 ++ s2 ++ tokenValue v1 v2 v3 v4 t3
        ++ s3 ∉ bodyNames) :
    renderTemplate (a0 ++ t1 ++ s1 ++ t2 ++ s2 ++ t3 ++ s3 ++ t4 ++ s4)
        v1 v2 v3 v4
      = a0 ++ tokenValue v1 v2 v3 v4 t1 ++ s1 ++ tokenValue v1 v2 v3 v4 t2 ++
        s2 ++ tokenValue v1 v2 v3 v4 t3 ++ s3 ++ tokenValue v1 v2 v3 v4 t4 ++
        s4 ∧
    ∀ tok ∈ tokensList,
      countOccs tok.data
        (renderTemplate (a0 ++ t1 ++ s1 ++ t2 ++ s2 ++ t3 ++ s3 ++ t4 ++ s4)
          v1 v2 v3 v4).data = 0 := by
  have ht1 : t1 = "%title%" ∨ t1 = "%date%" ∨ t1 = "%root_path%" ∨
      t1 = "%content%" := by
    have h : t1 ∈ tokensList := hperm.mem_iff.mp (by simp)
    simpa [tokensList] using h
  have ht2 : t2 = "%title%" ∨ t2 = "%date%" ∨ t2 = "%root_path%" ∨
      t2 = "%content%" := by
    have h : t2 ∈ tokensList := hperm.mem_iff.mp (by simp)
    simpa [tokensList] using h
  have ht3 : t3 = "%title%" ∨ t3 = "%date%" ∨ t3 = "%root_path%" ∨
      t3 = "%content%" := by
    have h : t3 ∈ tokensList := hperm.mem_iff.mp (by simp)
    simpa [tokensList] using h
  have ht4 : t4 = "%title%" ∨ t4 = "%date%" ∨ t4 = "%root_path%" ∨
      t4 = "%content%" := by
    have h : t4 ∈ tokensList := hperm.mem_iff.mp (by simp)
    simpa [tokensList] using h
  rcases ht1 with e1 | e1 | e1 | e1 <;>
    rcases ht2 with e2 | e2 | e2 | e2 <;>
      rcases ht3 with e3 | e3 | e3 | e3 <;>
        rcases ht4 with e4 | e4 | e4 | e4 <;>
          first
          | (rw [e1, e2, e3, e4] at hperm
             exact absurd hperm (by decide))
          | (obtain ⟨S1a, S1b, S1c, S1d⟩ := notIn_bodyNames_data hs1
             obtain ⟨S2a, S2b, S2c, S2d⟩ := notIn_bodyNames_data hs2
             obtain ⟨S3a, S3b, S3c, S3d⟩ := notIn_bodyNames_data hs3
             obtain ⟨W12a, W12b, W12c, W12d⟩ := notIn_bodyNames_data hw12
             obtain ⟨W23a, W23b, W23c, W23d⟩ := notIn_bodyNames_data hw23
             obtain ⟨W13a, W13b, W13c, W13d⟩ := notIn_bodyNames_data hw13
             simp only [e2, e3, tokenValue_title, tokenValue_date, tokenValue_root, tokenValue_content, String.data_append, List.append_assoc] at W12a W12b W12c W12d W23a W23b W23c W23d W13a W13b W13c W13d
             have hsafe : SafeRun
                 [(bodyOf "%title%", v1.data), (bodyOf "%date%", v2.data),
                  (bodyOf "%root_path%", v3.data), (bodyOf "%content%", v4.data)]
                 [(bodyOf t1, s1.data), (bodyOf t2, s2.data),
                  (bodyOf t3, s3.data), (bodyOf t4, s4.data)] = true := by
               rw [e1, e2, e3, e4]
               simp +decide [SafeRun, stepItems, bne_iff_ne,
                 List.dropLast_cons₂, List.append_assoc]
               tauto
             have hmain := applyReps_tokChain
                 [(bodyOf "%title%", v1.data), (bodyOf "%date%", v2.data),
                  (bodyOf "%root_path%", v3.data), (bodyOf "%content%", v4.data)]
                 a0.data
                 [(bodyOf t1, s1.data), (bodyOf t2, s2.data),
                  (bodyOf t3, s3.data), (bodyOf t4, s4.data)]
                 h0
                 (by intro pv hpv
                     simp only [List.mem_cons, List.not_mem_nil, or_false] at hpv
                     rcases hpv with rfl | rfl | rfl | rfl
                     exacts [⟨by show '%' ∉ bodyOf "%title%"; decide, hv1⟩,
                       ⟨by show '%' ∉ bodyOf "%date%"; decide, hv2⟩,
                       ⟨by show '%' ∉ bodyOf "%root_path%"; decide, hv3⟩,
                       ⟨by show '%' ∉ bodyOf "%content%"; decide, hv4⟩])
                 (by intro bs hbs
                     simp only [List.mem_cons, List.not_mem_nil, or_false] at hbs
                     rcases hbs with rfl | rfl | rfl | rfl
                     exacts [⟨by show '%' ∉ bodyOf t1; rw [e1]; decide, h1⟩,
                       ⟨by show '%' ∉ bodyOf t2; rw [e2]; decide, h2⟩,
                       ⟨by show '%' ∉ bodyOf t3; rw [e3]; decide, h3⟩,
                       ⟨by show '%' ∉ bodyOf t4; rw [e4]; decide, h4⟩])
                 (by rw [e1, e2, e3, e4]
                     simp only [List.map_cons, List.map_nil]
                     decide)
                 (by simp only [List.map_cons, List.map_nil]
                     decide)
                 hsafe
             have hT : (a0 ++ t1 ++ s1 ++ t2 ++ s2 ++ t3 ++ s3 ++ t4 ++ s4).data
                 = a0.data ++ tokChain [(bodyOf t1, s1.data), (bodyOf t2, s2.data),
                     (bodyOf t3, s3.data), (bodyOf t4, s4.data)] := by
               rw [e1, e2, e3, e4]
               simp [String.data_append, tokChain, bodyOf, List.append_assoc]
             refine ⟨?_, ?_⟩
             · apply String.ext
               rw [renderTemplate_applyReps, hT, hmain]
               rw [e1, e2, e3, e4]
               simp +decide [chainResult, repValue, tokenValue_title,
                 tokenValue_date, tokenValue_root, tokenValue_content,
                 String.data_append, List.append_assoc]
             · intro tok htok
               have hfree : '%' ∉ (renderTemplate
                   (a0 ++ t1 ++ s1 ++ t2 ++ s2 ++ t3 ++ s3 ++ t4 ++ s4)
                   v1 v2 v3 v4).data := by
                 rw [renderTemplate_applyReps, hT, hmain]
                 rw [e1, e2, e3, e4]
                 simp +decide [chainResult, repValue, List.mem_append, not_or]
                 tauto
               apply countOccs_eq_zero_of_free
               · have : tok = "%title%" ∨ tok = "%date%" ∨
                     tok = "%root_path%" ∨ tok = "%content%" := by
                   simpa [tokensList] using htok
                 rcases this with rfl | rfl | rfl | rfl <;> decide
               · exact hfree)

set_option maxHeartbeats 200000

theorem c5_amended_witness :
    renderTemplate
        ("<h>" ++ "%date%" ++ " " ++ "%title%" ++ " " ++ "%root_path%" ++
          " " ++ "%content%" ++ "") "T" "D" "R" "C"
      = "<h>" ++ tokenValue "T" "D" "R" "C" "%date%" ++ " " ++
        tokenValue "T" "D" "R" "C" "%title%" ++ " " ++
        tokenValue "T" "D" "R" "C" "%root_path%" ++ " " ++
        tokenValue "T" "D" "R" "C" "%content%" ++ "" :=
  (c5_amended_render_round_trip "%date%" "%title%" "%root_path%" "%content%"
    "<h>" " " " " " " "" "T" "D" "R" "C" (by decide)
    (by decide) (by decide) (by decide) (by decide) (by decide) (by decide)
    (by decide) (by decide) (by decide) (by decide) (by decide) (by decide)
    (by decide) (by decide) (by decide)).1

/-- The collapsed-window hypotheses of the amended C5 are necessary: with
the tokens arranged `%root_path% da %title% te %date% ⟨sp⟩ %content% ⟨sp⟩`
(segments and values %-free, no single segment a bare token name),
replacing `%title%` by `""` merges the segments `da` and `te` into the
text `date`; the subsequent `%date%` replacement then matches across the
token boundary — consuming `%root_path%`'s closing `%` — and the result
is not the expected interleaving (the root-path value `R` never appears). -/
theorem render_reorder_merge_hazard :
    renderTemplate "%root_path%da%title%te%date% %content% " "" "D" "R" "C"
      = "%root_pathDdate% C " ∧
    renderTemplate "%root_path%da%title%te%date% %content% " "" "D" "R" "C"
      ≠ "" ++ "R" ++ "da" ++ "" ++ "te" ++ "D" ++ " " ++ "C" ++ " " := by
  refine ⟨by decide, by decide⟩
